import Mathlib

/-!
Verification of the Peterson-lock repository
(`optimised_peterson_algorithm.py`).

The development has two layers:

* a sequential (single-caller) functional embedding of `PetersonLock.lock`,
  `PetersonLock.unlock`, `PetersonLock.get_stats` and `SharedResource.increment`.
  Wall-clock reads (`time.time() - start_time`) are supplied by an oracle
  `elapsedAt : Nat → ℚ` giving the elapsed time observed at the n-th check of
  the wait loop, and the busy-wait loop is driven by explicit fuel; running out
  of fuel is the `none` outcome (the call is still spinning).
* a small-step transition system of the concurrent protocol (two processes,
  program counters, the two intention flags and the turn cell), over which
  mutual exclusion is proved as an inductive invariant.
-/

/-- Error kinds raised by the code (all Python `PetersonError`s, distinguished
by their messages, matching §7 of the design). -/
inductive LockError where
  | invalidProcessId (pid : Int)
  | lockTimeout (pid : Int)
  | acquisitionFailed (inner : LockError)
  deriving Repr, DecidableEq

/-- The `ProcessStats` dataclass: entries, cumulative wait time (seconds, modelled
as ℚ), timeout failures. -/
structure ProcessStats where
  entries : Nat
  wait_time : ℚ
  fails : Nat
  deriving Repr, DecidableEq

/-- Constructor `PetersonLock.__init__`: `flag = [False, False]`, `turn = 0`,
`stats = {0: ProcessStats(), 1: ProcessStats()}`, `_lock_timeout = 5.0`. -/
structure PetersonLock where
  flag0 : Bool
  flag1 : Bool
  turn : Int
  stats0 : ProcessStats
  stats1 : ProcessStats
  lock_timeout : ℚ
  deriving Repr, DecidableEq

def ProcessStats.init : ProcessStats := ⟨0, 0, 0⟩

def PetersonLock.init : PetersonLock :=
  { flag0 := false, flag1 := false, turn := 0
    stats0 := ProcessStats.init, stats1 := ProcessStats.init
    lock_timeout := 5 }

/-- Read `self.flag[i]` (only ever used with `i ∈ {0,1}`). -/
def PetersonLock.flagGet (s : PetersonLock) (i : Int) : Bool :=
  if i = 0 then s.flag0 else s.flag1

/-- Write `self.flag[i] = b`. -/
def PetersonLock.flagSet (s : PetersonLock) (i : Int) (b : Bool) : PetersonLock :=
  if i = 0 then { s with flag0 := b } else { s with flag1 := b }

/-- Read `self.stats[i]`. -/
def PetersonLock.statsGet (s : PetersonLock) (i : Int) : ProcessStats :=
  if i = 0 then s.stats0 else s.stats1

/-- Mutate `self.stats[i]`. -/
def PetersonLock.statsSet (s : PetersonLock) (i : Int) (st : ProcessStats) :
    PetersonLock :=
  if i = 0 then { s with stats0 := st } else { s with stats1 := st }

/-- The `while self.flag[other] and self.turn == other:` loop of
`PetersonLock.lock`, lines 44-52.  `elapsedAt k` is the value of
`time.time() - start_time` observed at the k-th evaluation of the loop body /
exit; `fuel` bounds the number of iterations (out of fuel = `none`, the call
is still spinning and the state is returned unchanged by the loop). -/
def PetersonLock.lockLoop (elapsedAt : Nat → ℚ) (timeout : ℚ) (pid other : Int) :
    Nat → Nat → PetersonLock → PetersonLock × Option (Except LockError Bool)
  | _, 0, s => (s, none)
  | k, fuel + 1, s =>
    if s.flagGet other = true ∧ s.turn = other then
      if timeout < elapsedAt k then
        -- lines 46-48: flag reset, fails += 1, raise timeout error
        let s1 := s.flagSet pid false
        let st := s1.statsGet pid
        let s2 := s1.statsSet pid { st with fails := st.fails + 1 }
        (s2, some (.error (.lockTimeout pid)))
      else
        -- line 49: time.sleep(0.01), then re-check
        PetersonLock.lockLoop elapsedAt timeout pid other (k + 1) fuel s
    else
      -- lines 51-53: entries += 1, wait_time += elapsed, return True
      let st := s.statsGet pid
      let s1 := s.statsSet pid
        { st with entries := st.entries + 1, wait_time := st.wait_time + elapsedAt k }
      (s1, some (.ok true))

/-- Method `PetersonLock.lock` (lines 32-58).  Validates the id, sets
`flag[pid] = True` then `turn = other`, runs the wait loop; the
`except Exception` handler (lines 55-58) clears the flag again and re-raises
the failure wrapped as "Lock acquisition failed". -/
def PetersonLock.lock (s : PetersonLock) (pid : Int) (elapsedAt : Nat → ℚ)
    (fuel : Nat) : PetersonLock × Option (Except LockError Bool) :=
  if pid ≠ 0 ∧ pid ≠ 1 then (s, some (.error (.invalidProcessId pid)))
  else
    let other := 1 - pid
    let s1 := s.flagSet pid true
    let s2 := { s1 with turn := other }
    match PetersonLock.lockLoop elapsedAt s.lock_timeout pid other 0 fuel s2 with
    | (s', none) => (s', none)
    | (s', some (.ok b)) => (s', some (.ok b))
    | (s', some (.error e)) =>
      let s'' := s'.flagSet pid false
      (s'', some (.error (.acquisitionFailed e)))

/-- Method `PetersonLock.unlock` (lines 60-68): validate the id, clear the flag.
(The `except` branch is unreachable: the assignment cannot fail.) -/
def PetersonLock.unlock (s : PetersonLock) (pid : Int) :
    PetersonLock × Except LockError Unit :=
  if pid ≠ 0 ∧ pid ≠ 1 then (s, .error (.invalidProcessId pid))
  else (s.flagSet pid false, .ok ())

/-- One per-process entry of the dict returned by `get_stats`. -/
structure StatsSnapshot where
  entries : Nat
  avg_wait_time : ℚ
  fails : Nat
  deriving Repr, DecidableEq

def mkSnapshot (st : ProcessStats) : StatsSnapshot :=
  { entries := st.entries
    avg_wait_time := if st.entries > 0 then st.wait_time / st.entries else 0
    fails := st.fails }

/-- Method `PetersonLock.get_stats` (lines 70-79): a read-only derived view, one
snapshot per process id. -/
def PetersonLock.get_stats (s : PetersonLock) : StatsSnapshot × StatsSnapshot :=
  (mkSnapshot s.stats0, mkSnapshot s.stats1)

/-- One element of `SharedResource.access_log` (lines 98-104). -/
structure AccessLogEntry where
  process_id : Int
  operation : String
  amount : Int
  timestamp : ℚ
  duration : ℚ
  deriving Repr, DecidableEq

/-- Constructor `SharedResource.__init__`: `value = 0`, a fresh `PetersonLock`, empty log. -/
structure SharedResource where
  value : Int
  lock : PetersonLock
  access_log : List AccessLogEntry
  deriving Repr, DecidableEq

def SharedResource.init : SharedResource :=
  { value := 0, lock := PetersonLock.init, access_log := [] }

/-- Method `SharedResource.increment` (lines 87-112).  `ts` and `dur` are the
`time.time()` / `time.time() - start_time` readings taken while building the
log dict; `elapsedAt`/`fuel` drive the inner `lock` call.  The `finally`
block always runs `unlock`; a Python exception raised inside `finally`
replaces the in-flight exception, which the last `match` mirrors.  Outer
`none` = the inner wait loop is still spinning (no fuel), in which case
`finally` has not run yet. -/
def SharedResource.increment (r : SharedResource) (pid : Int) (amount : Int)
    (elapsedAt : Nat → ℚ) (fuel : Nat) (ts dur : ℚ) :
    SharedResource × Option (Except LockError Unit) :=
  match PetersonLock.lock r.lock pid elapsedAt fuel with
  | (l', none) => ({ r with lock := l' }, none)
  | (l', some res) =>
    let body : SharedResource × Except LockError Unit :=
      match res with
      | .error e => ({ r with lock := l' }, .error e)
      | .ok _ =>
        -- critical section (lines 92-104): read, write back value + amount,
        -- append one log entry
        let current := r.value
        ({ r with lock := l'
                  value := current + amount
                  access_log := r.access_log ++
                    [{ process_id := pid, operation := "increment"
                       amount := amount, timestamp := ts, duration := dur }] },
         .ok ())
    let (l2, ures) := PetersonLock.unlock body.1.lock pid
    match ures with
    | .error e2 => ({ body.1 with lock := l2 }, some (.error e2))
    | .ok _ => ({ body.1 with lock := l2 }, some body.2)

/-!
## Concurrent layer: the protocol as a small-step transition system

One program counter per identity, tracking where the identity stands in
`lock`/`unlock`:

* `idle`     — before line 40 (or after release / after a timeout rollback);
* `flagged`  — executed `self.flag[process_id] = True` (line 40), about to
  execute line 41;
* `waiting`  — executed `self.turn = other` (line 41), evaluating the wait
  loop (lines 44-49);
* `crit`     — exited the wait loop: between a successful acquire and the
  matching release (the critical section).
-/
inductive PC where
  | idle
  | flagged
  | waiting
  | crit
  deriving Repr, DecidableEq

/-- The shared state visible to both identities plus the two program
counters. -/
structure Sys where
  pc0 : PC
  pc1 : PC
  flag0 : Bool
  flag1 : Bool
  turn : Int
  deriving Repr, DecidableEq

def Sys.init : Sys :=
  { pc0 := .idle, pc1 := .idle, flag0 := false, flag1 := false, turn := 0 }

/-- One interleaved atomic step of either identity.  Each constructor is one
line of `lock`/`unlock`: the two protocol writes, the wait-loop exit test
(`while self.flag[other] and self.turn == other`), the timeout rollback
(`self.flag[process_id] = False` then raise), and the release write. -/
inductive Step : Sys → Sys → Prop where
  | setFlag0 (s : Sys) : s.pc0 = .idle →
      Step s { s with pc0 := .flagged, flag0 := true }
  | setTurn0 (s : Sys) : s.pc0 = .flagged →
      Step s { s with pc0 := .waiting, turn := 1 }
  | enter0 (s : Sys) : s.pc0 = .waiting → ¬(s.flag1 = true ∧ s.turn = 1) →
      Step s { s with pc0 := .crit }
  | timeout0 (s : Sys) : s.pc0 = .waiting → s.flag1 = true ∧ s.turn = 1 →
      Step s { s with pc0 := .idle, flag0 := false }
  | release0 (s : Sys) : s.pc0 = .crit →
      Step s { s with pc0 := .idle, flag0 := false }
  | setFlag1 (s : Sys) : s.pc1 = .idle →
      Step s { s with pc1 := .flagged, flag1 := true }
  | setTurn1 (s : Sys) : s.pc1 = .flagged →
      Step s { s with pc1 := .waiting, turn := 0 }
  | enter1 (s : Sys) : s.pc1 = .waiting → ¬(s.flag0 = true ∧ s.turn = 0) →
      Step s { s with pc1 := .crit }
  | timeout1 (s : Sys) : s.pc1 = .waiting → s.flag0 = true ∧ s.turn = 0 →
      Step s { s with pc1 := .idle, flag1 := false }
  | release1 (s : Sys) : s.pc1 = .crit →
      Step s { s with pc1 := .idle, flag1 := false }

/-- States reachable from the initial state by any interleaving. -/
def Reachable (s : Sys) : Prop := Relation.ReflTransGen Step Sys.init s

/-- The inductive invariant from which mutual exclusion follows: an identity
past its flag write has its flag up, and an identity in the critical section
rules the other one out unless the other has not yet surrendered the turn. -/
def SysInv (s : Sys) : Prop :=
  (s.turn = 0 ∨ s.turn = 1) ∧
  (s.pc0 ≠ .idle → s.flag0 = true) ∧
  (s.pc1 ≠ .idle → s.flag1 = true) ∧
  (s.pc0 = .crit → (s.flag1 = false ∨ s.turn = 0 ∨ s.pc1 = .flagged)) ∧
  (s.pc1 = .crit → (s.flag0 = false ∨ s.turn = 1 ∨ s.pc0 = .flagged))

/-!
## Operation traces over a single lock (for the statistics claims)
-/

/-- One call against the lock, as issued by a caller: either a `lock` attempt
(with its clock oracle and fuel) or an `unlock`. -/
inductive LockOp where
  | acquire (pid : Int) (elapsedAt : Nat → ℚ) (fuel : Nat)
  | release (pid : Int)

/-- The state after one call (the returned value is dropped). -/
def applyOp (s : PetersonLock) : LockOp → PetersonLock
  | .acquire pid elapsedAt fuel => (PetersonLock.lock s pid elapsedAt fuel).1
  | .release pid => (PetersonLock.unlock s pid).1

/-- Run a sequence of calls serially. -/
def runOps (s : PetersonLock) : List LockOp → PetersonLock
  | [] => s
  | op :: rest => runOps (applyOp s op) rest

/-- Number of `lock` attempts made by identity `pid` in a trace. -/
def attemptCount (pid : Int) : List LockOp → Nat
  | [] => 0
  | .acquire p _ _ :: rest => (if p = pid then 1 else 0) + attemptCount pid rest
  | .release _ :: rest => attemptCount pid rest

/-- Sum `entries + fails` of identity `i` in lock state `s`. -/
def entriesFails (s : PetersonLock) (i : Int) : Nat :=
  (s.statsGet i).entries + (s.statsGet i).fails

/-- The `get_stats` snapshot belonging to identity `i`. -/
def statsSnapOf (s : PetersonLock) (i : Int) : StatsSnapshot :=
  if i = 0 then s.get_stats.1 else s.get_stats.2

/-!
## Serialized increment schedules (for the determinism claim)
-/

/-- Relation `Interleaving as bs cs`: `cs` is a merge of `as` and `bs` keeping the
relative order inside each; this is the set of orders in which the two
identities' serialized increments can execute. -/
inductive Interleaving : List (Int × Int) → List (Int × Int) → List (Int × Int) → Prop where
  | nil : Interleaving [] [] []
  | left (x : Int × Int) {as bs cs : List (Int × Int)} :
      Interleaving as bs cs → Interleaving (x :: as) bs (x :: cs)
  | right (y : Int × Int) {as bs cs : List (Int × Int)} :
      Interleaving as bs cs → Interleaving as (y :: bs) (y :: cs)

/-- Run a schedule of `(process_id, amount)` increments serially (each call
completes, lock released, before the next starts); the clock oracle is
irrelevant because a serialized acquire never waits. -/
def runIncrements (r : SharedResource) : List (Int × Int) → SharedResource
  | [] => r
  | (pid, amt) :: rest =>
      runIncrements (SharedResource.increment r pid amt (fun _ => 0) 1 0 0).1 rest

/-- Sum of the amounts of a schedule. -/
def sumAmounts (l : List (Int × Int)) : Int := (l.map Prod.snd).sum

/-- Tag a list of amounts with the identity that performs them. -/
def taggedOps (pid : Int) (amounts : List Int) : List (Int × Int) :=
  amounts.map fun a => (pid, a)

/-!
## Proofs: the concurrent layer
-/

lemma sysInv_init : SysInv Sys.init := by
  simp [SysInv, Sys.init]

lemma sysInv_step {s s' : Sys} (hinv : SysInv s) (hstep : Step s s') : SysInv s' := by
  obtain ⟨ht, h0, h1, hc0, hc1⟩ := hinv
  unfold SysInv
  cases hstep <;> cases hf0 : s.flag0 <;> cases hf1 : s.flag1 <;> simp_all

lemma reachable_sysInv {s : Sys} (h : Reachable s) : SysInv s := by
  unfold Reachable at h
  induction h with
  | refl => exact sysInv_init
  | tail _ hstep ih => exact sysInv_step ih hstep

/-- C1: Mutual exclusion: for all interleavings of the two identities 0 and 1,
there is no instant at which both identities are simultaneously between a
successful acquire (lock) and the matching release (unlock); at most one
identity is inside the critical section at any instant. -/
theorem peterson_mutual_exclusion (s : Sys) (h : Reachable s) :
    ¬(s.pc0 = PC.crit ∧ s.pc1 = PC.crit) := by
  rintro ⟨hp0, hp1⟩
  obtain ⟨ht, h0, h1, hc0, hc1⟩ := reachable_sysInv h
  have hf0 : s.flag0 = true := h0 (by simp [hp0])
  have hf1 : s.flag1 = true := h1 (by simp [hp1])
  rcases hc0 hp0 with h | h | h
  · simp [hf1] at h
  · rcases hc1 hp1 with h' | h' | h'
    · simp [hf0] at h'
    · omega
    · simp [hp0] at h'
  · simp [hp1] at h

/-- Witness for C1: the state where identity 0 has entered the critical
section (reached in three protocol steps from the initial state) has only one
identity inside. -/
theorem peterson_mutual_exclusion_witness :
    ¬((⟨.crit, .idle, true, false, 1⟩ : Sys).pc0 = PC.crit ∧
      (⟨.crit, .idle, true, false, 1⟩ : Sys).pc1 = PC.crit) :=
  peterson_mutual_exclusion ⟨.crit, .idle, true, false, 1⟩
    (Relation.ReflTransGen.tail
      (Relation.ReflTransGen.tail
        (Relation.ReflTransGen.tail Relation.ReflTransGen.refl
          (Step.setFlag0 Sys.init rfl))
        (Step.setTurn0 _ rfl))
      (Step.enter0 _ rfl (by decide)))

/-!
## Proofs: the sequential layer
-/

/-- The wait loop either runs out of fuel leaving the state untouched,
succeeds bumping `entries` and `wait_time` of the calling id, or times out
clearing the calling id's flag and bumping its `fails`. -/
lemma lockLoop_shape (elapsedAt : Nat → ℚ) (timeout : ℚ) (pid other : Int) :
    ∀ fuel k s, (PetersonLock.lockLoop elapsedAt timeout pid other k fuel s = (s, none)) ∨
    (∃ e : ℚ, PetersonLock.lockLoop elapsedAt timeout pid other k fuel s =
      (s.statsSet pid { s.statsGet pid with
         entries := (s.statsGet pid).entries + 1,
         wait_time := (s.statsGet pid).wait_time + e }, some (.ok true))) ∨
    (PetersonLock.lockLoop elapsedAt timeout pid other k fuel s =
      ((s.flagSet pid false).statsSet pid
        { (s.flagSet pid false).statsGet pid with
          fails := ((s.flagSet pid false).statsGet pid).fails + 1 },
       some (.error (.lockTimeout pid)))) := by
  intro fuel
  induction fuel with
  | zero => intro k s; left; rfl
  | succ n ih =>
    intro k s
    rw [PetersonLock.lockLoop]
    by_cases hc : s.flagGet other = true ∧ s.turn = other
    · rw [if_pos hc]
      by_cases hto : timeout < elapsedAt k
      · rw [if_pos hto]; right; right; rfl
      · rw [if_neg hto]; exact ih (k + 1) s
    · rw [if_neg hc]; right; left; exact ⟨elapsedAt k, rfl⟩

/-- C3: For every identity outside {0,1}, both acquire and release fail with
`InvalidProcessId` before any shared-state mutation: flags, turn and all
statistics are left unchanged (the returned state is exactly the input
state). -/
theorem invalid_pid_rejection (s : PetersonLock) (pid : Int) (elapsedAt : Nat → ℚ)
    (fuel : Nat) (hpid : pid ≠ 0 ∧ pid ≠ 1) :
    PetersonLock.lock s pid elapsedAt fuel
        = (s, some (.error (.invalidProcessId pid))) ∧
    PetersonLock.unlock s pid = (s, .error (.invalidProcessId pid)) := by
  constructor
  · rw [PetersonLock.lock, if_pos hpid]
  · rw [PetersonLock.unlock, if_pos hpid]

/-- Witness for C3 at identity 2 on the freshly constructed lock. -/
theorem invalid_pid_rejection_witness :
    ((2 : Int) ≠ 0 ∧ (2 : Int) ≠ 1) ∧
    (PetersonLock.lock PetersonLock.init 2 (fun _ => 0) 1
        = (PetersonLock.init, some (.error (.invalidProcessId 2))) ∧
     PetersonLock.unlock PetersonLock.init 2
        = (PetersonLock.init, .error (.invalidProcessId 2))) :=
  ⟨by decide, invalid_pid_rejection PetersonLock.init 2 (fun _ => 0) 1 (by decide)⟩

/-- C5: For an identity in {0,1} whose peer's flag is down, acquire follows
the Peterson protocol: it raises its own flag, hands the turn to the peer,
exits the wait loop at once, increments its `entries` by one, adds the
elapsed wait to its `wait_time`, leaves its `fails` alone, and returns
`True`. -/
theorem lock_success_protocol (s : PetersonLock) (pid : Int) (elapsedAt : Nat → ℚ)
    (fuel : Nat) (hpid : pid = 0 ∨ pid = 1)
    (hother : s.flagGet (1 - pid) = false) (hfuel : 1 ≤ fuel) :
    (PetersonLock.lock s pid elapsedAt fuel).2 = some (.ok true) ∧
    (PetersonLock.lock s pid elapsedAt fuel).1.flagGet pid = true ∧
    (PetersonLock.lock s pid elapsedAt fuel).1.turn = 1 - pid ∧
    ((PetersonLock.lock s pid elapsedAt fuel).1.statsGet pid).entries
        = (s.statsGet pid).entries + 1 ∧
    ((PetersonLock.lock s pid elapsedAt fuel).1.statsGet pid).wait_time
        = (s.statsGet pid).wait_time + elapsedAt 0 ∧
    ((PetersonLock.lock s pid elapsedAt fuel).1.statsGet pid).fails
        = (s.statsGet pid).fails := by
  obtain ⟨m, rfl⟩ : ∃ m, fuel = m + 1 := ⟨fuel - 1, by omega⟩
  rcases hpid with rfl | rfl <;>
    simp_all [PetersonLock.lock, PetersonLock.lockLoop, PetersonLock.flagGet,
      PetersonLock.flagSet, PetersonLock.statsGet, PetersonLock.statsSet]

/-- Witness for C5: identity 0 acquiring the fresh lock. -/
theorem lock_success_protocol_witness :
    (PetersonLock.init.flagGet (1 - 0) = false ∧ 1 ≤ 1) ∧
    ((PetersonLock.lock PetersonLock.init 0 (fun _ => 0) 1).2 = some (.ok true) ∧
     (PetersonLock.lock PetersonLock.init 0 (fun _ => 0) 1).1.flagGet 0 = true ∧
     (PetersonLock.lock PetersonLock.init 0 (fun _ => 0) 1).1.turn = 1 - 0 ∧
     ((PetersonLock.lock PetersonLock.init 0 (fun _ => 0) 1).1.statsGet 0).entries
        = (PetersonLock.init.statsGet 0).entries + 1 ∧
     ((PetersonLock.lock PetersonLock.init 0 (fun _ => 0) 1).1.statsGet 0).wait_time
        = (PetersonLock.init.statsGet 0).wait_time + (fun _ => (0:ℚ)) 0 ∧
     ((PetersonLock.lock PetersonLock.init 0 (fun _ => 0) 1).1.statsGet 0).fails
        = (PetersonLock.init.statsGet 0).fails) :=
  ⟨⟨by decide, le_refl 1⟩,
   lock_success_protocol PetersonLock.init 0 (fun _ => 0) 1 (Or.inl rfl)
     (by decide) (le_refl 1)⟩

/-- C8: For an identity in {0,1}, release clears that identity's flag and
always succeeds, whether or not that identity ever acquired; releasing twice
is the same call as releasing once, and releasing with the flag already down
leaves the state untouched. -/
theorem unlock_safe_idempotent (s : PetersonLock) (pid : Int)
    (hpid : pid = 0 ∨ pid = 1) :
    (PetersonLock.unlock s pid).2 = .ok () ∧
    (PetersonLock.unlock s pid).1.flagGet pid = false ∧
    PetersonLock.unlock (PetersonLock.unlock s pid).1 pid
        = PetersonLock.unlock s pid ∧
    (s.flagGet pid = false → (PetersonLock.unlock s pid).1 = s) := by
  rcases hpid with rfl | rfl <;> cases s <;>
    simp_all [PetersonLock.unlock, PetersonLock.flagSet, PetersonLock.flagGet]

/-- Witness for C8: identity 1 releasing the fresh (never-acquired) lock. -/
theorem unlock_safe_idempotent_witness :
    ((PetersonLock.unlock PetersonLock.init 1).2 = .ok () ∧
     (PetersonLock.unlock PetersonLock.init 1).1.flagGet 1 = false ∧
     PetersonLock.unlock (PetersonLock.unlock PetersonLock.init 1).1 1
        = PetersonLock.unlock PetersonLock.init 1 ∧
     (PetersonLock.init.flagGet 1 = false →
        (PetersonLock.unlock PetersonLock.init 1).1 = PetersonLock.init)) :=
  unlock_safe_idempotent PetersonLock.init 1 (Or.inr rfl)

/-- If the wait-loop condition holds (and nothing interferes), the loop spins
until the first clock sample past the timeout and then performs the rollback:
flag down, `fails` up, `LockTimeout` raised. -/
lemma lockLoop_timeout (elapsedAt : Nat → ℚ) (timeout : ℚ) (pid other : Int)
    (s : PetersonLock) (hcond : s.flagGet other = true ∧ s.turn = other) :
    ∀ k k0 fuel, (∀ j, j < k → ¬ timeout < elapsedAt (k0 + j)) →
      timeout < elapsedAt (k0 + k) → k < fuel →
      PetersonLock.lockLoop elapsedAt timeout pid other k0 fuel s =
        ((s.flagSet pid false).statsSet pid
          { (s.flagSet pid false).statsGet pid with
            fails := ((s.flagSet pid false).statsGet pid).fails + 1 },
         some (.error (.lockTimeout pid))) := by
  intro k
  induction k with
  | zero =>
    intro k0 fuel _ hto hfuel
    obtain ⟨m, rfl⟩ : ∃ m, fuel = m + 1 := ⟨fuel - 1, by omega⟩
    rw [PetersonLock.lockLoop, if_pos hcond, if_pos (by simpa using hto)]
  | succ n ih =>
    intro k0 fuel hbelow hto hfuel
    obtain ⟨m, rfl⟩ : ∃ m, fuel = m + 1 := ⟨fuel - 1, by omega⟩
    rw [PetersonLock.lockLoop, if_pos hcond,
      if_neg (by simpa using hbelow 0 (Nat.succ_pos n))]
    refine ih (k0 + 1) m ?_ ?_ (by omega)
    · intro j hj
      have h := hbelow (j + 1) (by omega)
      have harith : k0 + (j + 1) = k0 + 1 + j := by omega
      rwa [harith] at h
    · have harith : k0 + (n + 1) = k0 + 1 + n := by omega
      rwa [harith] at hto

/-- Unfolding `lock` on a valid id: protocol writes then the wait loop, with the
`except` wrapper on the error path. -/
lemma lock_eq_valid (s : PetersonLock) (pid : Int) (elapsedAt : Nat → ℚ)
    (fuel : Nat) (hpid : ¬(pid ≠ 0 ∧ pid ≠ 1)) :
    PetersonLock.lock s pid elapsedAt fuel =
      match PetersonLock.lockLoop elapsedAt s.lock_timeout pid (1 - pid) 0 fuel
          { s.flagSet pid true with turn := 1 - pid } with
      | (s', none) => (s', none)
      | (s', some (.ok b)) => (s', some (.ok b))
      | (s', some (.error e)) =>
          (s'.flagSet pid false, some (.error (.acquisitionFailed e))) := by
  rw [PetersonLock.lock, if_neg hpid]

/-- C2: For an identity in {0,1} whose peer's flag is up, once the elapsed
wait passes the configured timeout the call aborts: the identity's flag is
reset, its `fails` grows by exactly one, its `entries` and `wait_time` are
unchanged, and the surfaced error is `LockTimeout` wrapped as a lock
acquisition failure. -/
theorem lock_timeout_behavior (s : PetersonLock) (pid : Int) (elapsedAt : Nat → ℚ)
    (fuel k : Nat) (hpid : pid = 0 ∨ pid = 1)
    (hother : s.flagGet (1 - pid) = true)
    (hbelow : ∀ j, j < k → ¬ s.lock_timeout < elapsedAt j)
    (hto : s.lock_timeout < elapsedAt k) (hfuel : k < fuel) :
    (PetersonLock.lock s pid elapsedAt fuel).2
        = some (.error (.acquisitionFailed (.lockTimeout pid))) ∧
    (PetersonLock.lock s pid elapsedAt fuel).1.flagGet pid = false ∧
    ((PetersonLock.lock s pid elapsedAt fuel).1.statsGet pid).fails
        = (s.statsGet pid).fails + 1 ∧
    ((PetersonLock.lock s pid elapsedAt fuel).1.statsGet pid).entries
        = (s.statsGet pid).entries ∧
    ((PetersonLock.lock s pid elapsedAt fuel).1.statsGet pid).wait_time
        = (s.statsGet pid).wait_time := by
  rcases hpid with rfl | rfl
  · rw [lock_eq_valid s 0 elapsedAt fuel (by simp)]
    norm_num
    have hcond : ({ s.flagSet 0 true with turn := (1:Int) } : PetersonLock).flagGet 1
          = true ∧
        ({ s.flagSet 0 true with turn := (1:Int) } : PetersonLock).turn = 1 := by
      refine ⟨?_, rfl⟩
      simpa [PetersonLock.flagGet, PetersonLock.flagSet] using hother
    rw [lockLoop_timeout elapsedAt s.lock_timeout 0 1 _ hcond k 0 fuel
      (fun j hj => by simpa using hbelow j hj) (by simpa using hto) hfuel]
    simp [PetersonLock.flagGet, PetersonLock.flagSet, PetersonLock.statsGet,
      PetersonLock.statsSet]
  · rw [lock_eq_valid s 1 elapsedAt fuel (by simp)]
    norm_num
    have hcond : ({ s.flagSet 1 true with turn := (0:Int) } : PetersonLock).flagGet 0
          = true ∧
        ({ s.flagSet 1 true with turn := (0:Int) } : PetersonLock).turn = 0 := by
      refine ⟨?_, rfl⟩
      simpa [PetersonLock.flagGet, PetersonLock.flagSet] using hother
    rw [lockLoop_timeout elapsedAt s.lock_timeout 1 0 _ hcond k 0 fuel
      (fun j hj => by simpa using hbelow j hj) (by simpa using hto) hfuel]
    simp [PetersonLock.flagGet, PetersonLock.flagSet, PetersonLock.statsGet,
      PetersonLock.statsSet]

/-- Witness for C2: identity 0 times out at the first check (clock reads 6 s,
timeout 5 s) while identity 1 holds its flag. -/
theorem lock_timeout_behavior_witness :
    ((⟨false, true, 0, ⟨0, 0, 0⟩, ⟨0, 0, 0⟩, 5⟩ : PetersonLock).flagGet (1 - 0)
        = true ∧
     (⟨false, true, 0, ⟨0, 0, 0⟩, ⟨0, 0, 0⟩, 5⟩ : PetersonLock).lock_timeout
        < (fun _ => (6:ℚ)) 0) ∧
    ((PetersonLock.lock ⟨false, true, 0, ⟨0, 0, 0⟩, ⟨0, 0, 0⟩, 5⟩ 0
        (fun _ => 6) 1).2
        = some (.error (.acquisitionFailed (.lockTimeout 0))) ∧
     (PetersonLock.lock ⟨false, true, 0, ⟨0, 0, 0⟩, ⟨0, 0, 0⟩, 5⟩ 0
        (fun _ => 6) 1).1.flagGet 0 = false ∧
     ((PetersonLock.lock ⟨false, true, 0, ⟨0, 0, 0⟩, ⟨0, 0, 0⟩, 5⟩ 0
        (fun _ => 6) 1).1.statsGet 0).fails
        = ((⟨false, true, 0, ⟨0, 0, 0⟩, ⟨0, 0, 0⟩, 5⟩ : PetersonLock).statsGet 0).fails
          + 1 ∧
     ((PetersonLock.lock ⟨false, true, 0, ⟨0, 0, 0⟩, ⟨0, 0, 0⟩, 5⟩ 0
        (fun _ => 6) 1).1.statsGet 0).entries
        = ((⟨false, true, 0, ⟨0, 0, 0⟩, ⟨0, 0, 0⟩, 5⟩ : PetersonLock).statsGet 0).entries ∧
     ((PetersonLock.lock ⟨false, true, 0, ⟨0, 0, 0⟩, ⟨0, 0, 0⟩, 5⟩ 0
        (fun _ => 6) 1).1.statsGet 0).wait_time
        = ((⟨false, true, 0, ⟨0, 0, 0⟩, ⟨0, 0, 0⟩, 5⟩ : PetersonLock).statsGet 0).wait_time) :=
  ⟨⟨by decide, by norm_num⟩,
   lock_timeout_behavior ⟨false, true, 0, ⟨0, 0, 0⟩, ⟨0, 0, 0⟩, 5⟩ 0 (fun _ => 6) 1 0
     (Or.inl rfl) (by decide) (fun j hj => absurd hj (Nat.not_lt_zero j))
     (by norm_num) Nat.one_pos⟩

/-- C10: Acquire by identity i never touches the peer's flag or the peer's
statistics — whether it succeeds, times out, or runs out of fuel — and
release by identity i only touches flag i: turn, the peer's flag and both
identities' statistics are unchanged. -/
theorem lock_unlock_frame (s : PetersonLock) (i : Int) (elapsedAt : Nat → ℚ)
    (fuel : Nat) (hi : i = 0 ∨ i = 1) :
    (PetersonLock.lock s i elapsedAt fuel).1.flagGet (1 - i) = s.flagGet (1 - i) ∧
    (PetersonLock.lock s i elapsedAt fuel).1.statsGet (1 - i) = s.statsGet (1 - i) ∧
    (PetersonLock.unlock s i).1.flagGet (1 - i) = s.flagGet (1 - i) ∧
    (PetersonLock.unlock s i).1.turn = s.turn ∧
    (PetersonLock.unlock s i).1.statsGet 0 = s.statsGet 0 ∧
    (PetersonLock.unlock s i).1.statsGet 1 = s.statsGet 1 := by
  rcases hi with rfl | rfl
  · rw [lock_eq_valid s 0 elapsedAt fuel (by simp)]
    norm_num
    rcases lockLoop_shape elapsedAt s.lock_timeout 0 1 fuel 0
        { s.flagSet 0 true with turn := (1:Int) } with h | ⟨e, h⟩ | h <;>
      rw [h] <;>
      simp [PetersonLock.flagGet, PetersonLock.flagSet, PetersonLock.statsGet,
        PetersonLock.statsSet, PetersonLock.unlock]
  · rw [lock_eq_valid s 1 elapsedAt fuel (by simp)]
    norm_num
    rcases lockLoop_shape elapsedAt s.lock_timeout 1 0 fuel 0
        { s.flagSet 1 true with turn := (0:Int) } with h | ⟨e, h⟩ | h <;>
      rw [h] <;>
      simp [PetersonLock.flagGet, PetersonLock.flagSet, PetersonLock.statsGet,
        PetersonLock.statsSet, PetersonLock.unlock]

/-- Witness for C10: identity 0 against the fresh lock. -/
theorem lock_unlock_frame_witness :
    (PetersonLock.lock PetersonLock.init 0 (fun _ => 0) 1).1.flagGet (1 - 0)
        = PetersonLock.init.flagGet (1 - 0) ∧
    (PetersonLock.lock PetersonLock.init 0 (fun _ => 0) 1).1.statsGet (1 - 0)
        = PetersonLock.init.statsGet (1 - 0) ∧
    (PetersonLock.unlock PetersonLock.init 0).1.flagGet (1 - 0)
        = PetersonLock.init.flagGet (1 - 0) ∧
    (PetersonLock.unlock PetersonLock.init 0).1.turn = PetersonLock.init.turn ∧
    (PetersonLock.unlock PetersonLock.init 0).1.statsGet 0
        = PetersonLock.init.statsGet 0 ∧
    (PetersonLock.unlock PetersonLock.init 0).1.statsGet 1
        = PetersonLock.init.statsGet 1 :=
  lock_unlock_frame PetersonLock.init 0 (fun _ => 0) 1 (Or.inl rfl)

/-- One `lock` call grows `entries + fails` of identity `i` by at most one,
and only when the caller is `i` itself. -/
lemma entriesFails_lock_le (s : PetersonLock) (pid : Int) (elapsedAt : Nat → ℚ)
    (fuel : Nat) (i : Int) (hi : i = 0 ∨ i = 1) :
    entriesFails (PetersonLock.lock s pid elapsedAt fuel).1 i
      ≤ entriesFails s i + (if pid = i then 1 else 0) := by
  by_cases hpid : pid ≠ 0 ∧ pid ≠ 1
  · rw [PetersonLock.lock, if_pos hpid]
    simp
  · have hcase : pid = 0 ∨ pid = 1 := by tauto
    rcases hcase with rfl | rfl
    · rw [lock_eq_valid s 0 elapsedAt fuel hpid]
      norm_num
      rcases lockLoop_shape elapsedAt s.lock_timeout 0 1 fuel 0
          { s.flagSet 0 true with turn := (1:Int) } with h | ⟨e, h⟩ | h <;>
        rw [h] <;> rcases hi with rfl | rfl <;>
        simp [entriesFails, PetersonLock.statsGet, PetersonLock.statsSet,
          PetersonLock.flagSet, PetersonLock.flagGet] <;> omega
    · rw [lock_eq_valid s 1 elapsedAt fuel hpid]
      norm_num
      rcases lockLoop_shape elapsedAt s.lock_timeout 1 0 fuel 0
          { s.flagSet 1 true with turn := (0:Int) } with h | ⟨e, h⟩ | h <;>
        rw [h] <;> rcases hi with rfl | rfl <;>
        simp [entriesFails, PetersonLock.statsGet, PetersonLock.statsSet,
          PetersonLock.flagSet, PetersonLock.flagGet] <;> omega

/-- A release never changes any statistics. -/
lemma entriesFails_unlock (s : PetersonLock) (pid : Int) (i : Int) :
    entriesFails (PetersonLock.unlock s pid).1 i = entriesFails s i := by
  rw [PetersonLock.unlock]
  by_cases hpid : pid ≠ 0 ∧ pid ≠ 1
  · rw [if_pos hpid]
  · rw [if_neg hpid]
    by_cases hp : pid = 0 <;> by_cases hz : i = 0 <;>
      simp [entriesFails, PetersonLock.statsGet, PetersonLock.flagSet, hp, hz]

/-- Over any serial trace of calls, `entries + fails` of identity `i` is
bounded by `i`'s acquire attempts. -/
lemma entriesFails_runOps (i : Int) (hi : i = 0 ∨ i = 1) :
    ∀ ops s, entriesFails (runOps s ops) i ≤ entriesFails s i + attemptCount i ops := by
  intro ops
  induction ops with
  | nil => intro s; simp [runOps, attemptCount]
  | cons op rest ih =>
    intro s
    rw [runOps]
    cases op with
    | acquire p elapsedAt fuel =>
      calc entriesFails (runOps (applyOp s (.acquire p elapsedAt fuel)) rest) i
          ≤ entriesFails (applyOp s (.acquire p elapsedAt fuel)) i
              + attemptCount i rest := ih _
        _ ≤ entriesFails s i + (if p = i then 1 else 0) + attemptCount i rest := by
              have := entriesFails_lock_le s p elapsedAt fuel i hi
              simp only [applyOp]
              omega
        _ = entriesFails s i + attemptCount i (.acquire p elapsedAt fuel :: rest) := by
              rw [attemptCount]
              omega
    | release p =>
      calc entriesFails (runOps (applyOp s (.release p)) rest) i
          ≤ entriesFails (applyOp s (.release p)) i + attemptCount i rest := ih _
        _ = entriesFails s i + attemptCount i (.release p :: rest) := by
              simp only [applyOp, attemptCount]
              rw [entriesFails_unlock]

/-- C9: Statistics consistency: after any serial trace of calls against a
fresh lock, `entries + fails` of identity `i` is at most `i`'s acquire
attempts; and the `get_stats` snapshot (a derived view computed by a pure
read) reports `average_wait_time = wait_time / entries` when `entries > 0`
and `0` when `entries = 0`, copying `entries` and `fails` through. -/
theorem stats_consistency (i : Int) (ops : List LockOp) (s : PetersonLock)
    (hi : i = 0 ∨ i = 1) :
    entriesFails (runOps PetersonLock.init ops) i ≤ attemptCount i ops ∧
    ((s.statsGet i).entries ≠ 0 →
      (statsSnapOf s i).avg_wait_time * ((s.statsGet i).entries : ℚ)
        = (s.statsGet i).wait_time) ∧
    ((s.statsGet i).entries = 0 → (statsSnapOf s i).avg_wait_time = 0) ∧
    (statsSnapOf s i).entries = (s.statsGet i).entries ∧
    (statsSnapOf s i).fails = (s.statsGet i).fails := by
  have h0 : entriesFails PetersonLock.init i = 0 := by
    rcases hi with rfl | rfl <;>
      simp [entriesFails, PetersonLock.statsGet, PetersonLock.init, ProcessStats.init]
  refine ⟨by simpa [h0] using entriesFails_runOps i hi ops PetersonLock.init,
    ?_, ?_, ?_, ?_⟩ <;>
    rcases hi with rfl | rfl <;>
    simp [statsSnapOf, PetersonLock.get_stats, mkSnapshot, PetersonLock.statsGet]
  · intro h
    rw [if_pos (Nat.pos_of_ne_zero h)]
    exact div_mul_cancel₀ _ (Nat.cast_ne_zero.mpr h)
  · intro h
    rw [if_pos (Nat.pos_of_ne_zero h)]
    exact div_mul_cancel₀ _ (Nat.cast_ne_zero.mpr h)
  · intro h h'
    omega
  · intro h h'
    omega

/-- Witness for C9: identity 0, a one-acquire trace, and a lock state with
2 entries and 3 seconds of accumulated wait. -/
theorem stats_consistency_witness :
    ((0:Int) = 0 ∨ (0:Int) = 1) ∧
    (entriesFails (runOps PetersonLock.init [.acquire 0 (fun _ => 0) 1]) 0
        ≤ attemptCount 0 [.acquire 0 (fun _ => 0) 1] ∧
     (((⟨false, false, 0, ⟨2, 3, 1⟩, ⟨0, 0, 0⟩, 5⟩ : PetersonLock).statsGet 0).entries ≠ 0 →
       (statsSnapOf ⟨false, false, 0, ⟨2, 3, 1⟩, ⟨0, 0, 0⟩, 5⟩ 0).avg_wait_time
           * (((⟨false, false, 0, ⟨2, 3, 1⟩, ⟨0, 0, 0⟩, 5⟩ : PetersonLock).statsGet 0).entries : ℚ)
         = ((⟨false, false, 0, ⟨2, 3, 1⟩, ⟨0, 0, 0⟩, 5⟩ : PetersonLock).statsGet 0).wait_time) ∧
     (((⟨false, false, 0, ⟨2, 3, 1⟩, ⟨0, 0, 0⟩, 5⟩ : PetersonLock).statsGet 0).entries = 0 →
       (statsSnapOf ⟨false, false, 0, ⟨2, 3, 1⟩, ⟨0, 0, 0⟩, 5⟩ 0).avg_wait_time = 0) ∧
     (statsSnapOf ⟨false, false, 0, ⟨2, 3, 1⟩, ⟨0, 0, 0⟩, 5⟩ 0).entries
         = ((⟨false, false, 0, ⟨2, 3, 1⟩, ⟨0, 0, 0⟩, 5⟩ : PetersonLock).statsGet 0).entries ∧
     (statsSnapOf ⟨false, false, 0, ⟨2, 3, 1⟩, ⟨0, 0, 0⟩, 5⟩ 0).fails
         = ((⟨false, false, 0, ⟨2, 3, 1⟩, ⟨0, 0, 0⟩, 5⟩ : PetersonLock).statsGet 0).fails) :=
  ⟨Or.inl rfl,
   stats_consistency 0 [.acquire 0 (fun _ => 0) 1]
     ⟨false, false, 0, ⟨2, 3, 1⟩, ⟨0, 0, 0⟩, 5⟩ (Or.inl rfl)⟩

/-- Unfolding `increment` when the inner `lock` succeeded: critical section runs, one
log entry is appended, and the `finally` block releases the flag. -/
lemma increment_of_lock_ok (r : SharedResource) (pid amount : Int)
    (elapsedAt : Nat → ℚ) (fuel : Nat) (ts dur : ℚ) (l' : PetersonLock) (b : Bool)
    (hvalid : ¬(pid ≠ 0 ∧ pid ≠ 1))
    (h : PetersonLock.lock r.lock pid elapsedAt fuel = (l', some (.ok b))) :
    SharedResource.increment r pid amount elapsedAt fuel ts dur =
      ({ value := r.value + amount, lock := l'.flagSet pid false
         access_log := r.access_log ++
           [{ process_id := pid, operation := "increment", amount := amount
              timestamp := ts, duration := dur }] }, some (.ok ())) := by
  rw [SharedResource.increment, h]
  simp [PetersonLock.unlock, hvalid]

/-- Unfolding `increment` when the inner `lock` failed on a valid id: the `finally`
release succeeds and the original error is re-raised. -/
lemma increment_of_lock_error_valid (r : SharedResource) (pid amount : Int)
    (elapsedAt : Nat → ℚ) (fuel : Nat) (ts dur : ℚ) (l' : PetersonLock)
    (e : LockError) (hvalid : ¬(pid ≠ 0 ∧ pid ≠ 1))
    (h : PetersonLock.lock r.lock pid elapsedAt fuel = (l', some (.error e))) :
    SharedResource.increment r pid amount elapsedAt fuel ts dur =
      ({ r with lock := l'.flagSet pid false }, some (.error e)) := by
  rw [SharedResource.increment, h]
  simp [PetersonLock.unlock, hvalid]

/-- Unfolding `increment` on an invalid id: `lock` rejects it untouched, and the
`unlock` in `finally` raises its own `InvalidProcessId`, which (as in Python,
where an exception raised inside `finally` replaces the in-flight one) is the
error the caller sees. -/
lemma increment_of_invalid (r : SharedResource) (pid amount : Int)
    (elapsedAt : Nat → ℚ) (fuel : Nat) (ts dur : ℚ)
    (hinv : pid ≠ 0 ∧ pid ≠ 1) :
    SharedResource.increment r pid amount elapsedAt fuel ts dur =
      (r, some (.error (.invalidProcessId pid))) := by
  rw [SharedResource.increment, PetersonLock.lock, if_pos hinv]
  simp [PetersonLock.unlock, hinv]

/-- Full success behaviour of `increment` for a valid id whose peer's flag is
down: the lock is acquired at once, the value is bumped, one entry is logged,
and the flag is back down afterwards with the peer's flag untouched. -/
lemma increment_success_spec (r : SharedResource) (pid amount : Int)
    (elapsedAt : Nat → ℚ) (fuel : Nat) (ts dur : ℚ)
    (hpid : pid = 0 ∨ pid = 1) (hother : r.lock.flagGet (1 - pid) = false)
    (hfuel : 1 ≤ fuel) :
    (SharedResource.increment r pid amount elapsedAt fuel ts dur).2
        = some (.ok ()) ∧
    (SharedResource.increment r pid amount elapsedAt fuel ts dur).1.value
        = r.value + amount ∧
    (SharedResource.increment r pid amount elapsedAt fuel ts dur).1.access_log
        = r.access_log ++
          [{ process_id := pid, operation := "increment", amount := amount
             timestamp := ts, duration := dur }] ∧
    (SharedResource.increment r pid amount elapsedAt fuel ts dur).1.lock.flagGet pid
        = false ∧
    (SharedResource.increment r pid amount elapsedAt fuel ts dur).1.lock.flagGet (1 - pid)
        = r.lock.flagGet (1 - pid) := by
  obtain ⟨m, rfl⟩ : ∃ m, fuel = m + 1 := ⟨fuel - 1, by omega⟩
  have hvalid : ¬(pid ≠ 0 ∧ pid ≠ 1) := by tauto
  rcases hpid with rfl | rfl <;>
    rw [SharedResource.increment, PetersonLock.lock, if_neg hvalid] <;>
    simp_all [PetersonLock.lockLoop, PetersonLock.unlock, PetersonLock.flagGet,
      PetersonLock.flagSet, PetersonLock.statsGet, PetersonLock.statsSet]

/-- C6: For a valid identity, when `increment` acquires the lock it writes
back `value + amount` and appends exactly one log entry recording identity,
operation name, amount, timestamp and duration; on every path on which the
call completes, the `finally` block has released the identity's flag; and a
lock-acquisition error is re-raised to the caller unchanged. -/
theorem increment_success_scoped_release (r : SharedResource) (pid amount : Int)
    (elapsedAt : Nat → ℚ) (fuel : Nat) (ts dur : ℚ) (e : LockError)
    (hpid : pid = 0 ∨ pid = 1) :
    (r.lock.flagGet (1 - pid) = false → 1 ≤ fuel →
      (SharedResource.increment r pid amount elapsedAt fuel ts dur).2
          = some (.ok ()) ∧
      (SharedResource.increment r pid amount elapsedAt fuel ts dur).1.value
          = r.value + amount ∧
      (SharedResource.increment r pid amount elapsedAt fuel ts dur).1.access_log
          = r.access_log ++
            [{ process_id := pid, operation := "increment", amount := amount
               timestamp := ts, duration := dur }]) ∧
    ((SharedResource.increment r pid amount elapsedAt fuel ts dur).2 ≠ none →
      (SharedResource.increment r pid amount elapsedAt fuel ts dur).1.lock.flagGet pid
          = false) ∧
    ((PetersonLock.lock r.lock pid elapsedAt fuel).2 = some (.error e) →
      (SharedResource.increment r pid amount elapsedAt fuel ts dur).2
          = some (.error e)) := by
  have hvalid : ¬(pid ≠ 0 ∧ pid ≠ 1) := by tauto
  refine ⟨?_, ?_, ?_⟩
  · intro hother hfuel
    obtain ⟨h1, h2, h3, _, _⟩ :=
      increment_success_spec r pid amount elapsedAt fuel ts dur hpid hother hfuel
    exact ⟨h1, h2, h3⟩
  · intro hne
    rcases hL : PetersonLock.lock r.lock pid elapsedAt fuel with ⟨l', res⟩
    cases res with
    | none =>
      rw [SharedResource.increment, hL] at hne
      simp at hne
    | some res' =>
      cases res' with
      | ok b =>
        rw [increment_of_lock_ok r pid amount elapsedAt fuel ts dur l' b hvalid hL]
        rcases hpid with rfl | rfl <;>
          simp [PetersonLock.flagGet, PetersonLock.flagSet]
      | error e' =>
        rw [increment_of_lock_error_valid r pid amount elapsedAt fuel ts dur l' e'
          hvalid hL]
        rcases hpid with rfl | rfl <;>
          simp [PetersonLock.flagGet, PetersonLock.flagSet]
  · intro hfail
    rcases hL : PetersonLock.lock r.lock pid elapsedAt fuel with ⟨l', res⟩
    rw [hL] at hfail
    simp only at hfail
    subst hfail
    rw [increment_of_lock_error_valid r pid amount elapsedAt fuel ts dur l' e
      hvalid hL]

/-- Witness for C6: identity 0 incrementing the fresh counter by 5. -/
theorem increment_success_scoped_release_witness :
    ((0:Int) = 0 ∨ (0:Int) = 1) ∧
    ((SharedResource.init.lock.flagGet (1 - 0) = false → 1 ≤ 1 →
      (SharedResource.increment SharedResource.init 0 5 (fun _ => 0) 1 0 0).2
          = some (.ok ()) ∧
      (SharedResource.increment SharedResource.init 0 5 (fun _ => 0) 1 0 0).1.value
          = SharedResource.init.value + 5 ∧
      (SharedResource.increment SharedResource.init 0 5 (fun _ => 0) 1 0 0).1.access_log
          = SharedResource.init.access_log ++
            [{ process_id := 0, operation := "increment", amount := 5
               timestamp := 0, duration := 0 }]) ∧
    ((SharedResource.increment SharedResource.init 0 5 (fun _ => 0) 1 0 0).2 ≠ none →
      (SharedResource.increment SharedResource.init 0 5 (fun _ => 0) 1 0 0).1.lock.flagGet 0
          = false) ∧
    ((PetersonLock.lock SharedResource.init.lock 0 (fun _ => 0) 1).2
          = some (.error (.lockTimeout 0)) →
      (SharedResource.increment SharedResource.init 0 5 (fun _ => 0) 1 0 0).2
          = some (.error (.lockTimeout 0)))) :=
  ⟨Or.inl rfl,
   increment_success_scoped_release SharedResource.init 0 5 (fun _ => 0) 1 0 0
     (.lockTimeout 0) (Or.inl rfl)⟩

/-- C7: If the acquire inside `increment` fails (invalid identity or
timeout), an error of the same kind propagates to the caller, the counter
value is unchanged, and no access-log entry is appended. -/
theorem increment_acquire_failure (r : SharedResource) (pid amount : Int)
    (elapsedAt : Nat → ℚ) (fuel : Nat) (ts dur : ℚ) (e : LockError)
    (hfail : (PetersonLock.lock r.lock pid elapsedAt fuel).2 = some (.error e)) :
    (SharedResource.increment r pid amount elapsedAt fuel ts dur).2
        = some (.error e) ∧
    (SharedResource.increment r pid amount elapsedAt fuel ts dur).1.value
        = r.value ∧
    (SharedResource.increment r pid amount elapsedAt fuel ts dur).1.access_log
        = r.access_log := by
  rcases hL : PetersonLock.lock r.lock pid elapsedAt fuel with ⟨l', res⟩
  rw [hL] at hfail
  simp only at hfail
  subst hfail
  by_cases hvalid : pid ≠ 0 ∧ pid ≠ 1
  · rw [PetersonLock.lock, if_pos hvalid] at hL
    simp only [Prod.mk.injEq, Option.some.injEq, Except.error.injEq] at hL
    obtain ⟨hl, he⟩ := hL
    subst he
    rw [increment_of_invalid r pid amount elapsedAt fuel ts dur hvalid]
    simp
  · rw [increment_of_lock_error_valid r pid amount elapsedAt fuel ts dur l' e
      hvalid hL]
    simp

/-- Witness for C7: `increment(2)` on the fresh counter fails with
`InvalidProcessId`, the value stays 0 and the log stays empty. -/
theorem increment_acquire_failure_witness :
    (PetersonLock.lock SharedResource.init.lock 2 (fun _ => 0) 1).2
        = some (.error (.invalidProcessId 2)) ∧
    ((SharedResource.increment SharedResource.init 2 1 (fun _ => 0) 1 0 0).2
        = some (.error (.invalidProcessId 2)) ∧
     (SharedResource.increment SharedResource.init 2 1 (fun _ => 0) 1 0 0).1.value
        = SharedResource.init.value ∧
     (SharedResource.increment SharedResource.init 2 1 (fun _ => 0) 1 0 0).1.access_log
        = SharedResource.init.access_log) :=
  ⟨rfl, increment_acquire_failure SharedResource.init 2 1 (fun _ => 0) 1 0 0
    (.invalidProcessId 2) rfl⟩

/-- Merging two schedules preserves the total amount. -/
lemma interleave_sumAmounts {as bs cs : List (Int × Int)}
    (h : Interleaving as bs cs) :
    sumAmounts cs = sumAmounts as + sumAmounts bs := by
  induction h with
  | nil => simp [sumAmounts]
  | left x _ ih => simp [sumAmounts] at ih ⊢; omega
  | right y _ ih => simp [sumAmounts] at ih ⊢; omega

/-- Every element of a merge comes from one of the two sides. -/
lemma interleave_mem {as bs cs : List (Int × Int)} (h : Interleaving as bs cs)
    {p : Int × Int} (hp : p ∈ cs) : p ∈ as ∨ p ∈ bs := by
  induction h with
  | nil => simp at hp
  | left x _ ih =>
    rcases List.mem_cons.mp hp with rfl | hp'
    · exact Or.inl (List.mem_cons_self _ _)
    · rcases ih hp' with h' | h'
      · exact Or.inl (List.mem_cons_of_mem _ h')
      · exact Or.inr h'
  | right y _ ih =>
    rcases List.mem_cons.mp hp with rfl | hp'
    · exact Or.inr (List.mem_cons_self _ _)
    · rcases ih hp' with h' | h'
      · exact Or.inl h'
      · exact Or.inr (List.mem_cons_of_mem _ h')

/-- Running a schedule of valid-id increments serially from a state with both
flags down adds the total amount to the value and leaves both flags down. -/
lemma runIncrements_value :
    ∀ cs : List (Int × Int), ∀ r : SharedResource,
      (∀ p ∈ cs, p.1 = 0 ∨ p.1 = 1) →
      r.lock.flag0 = false → r.lock.flag1 = false →
      (runIncrements r cs).value = r.value + sumAmounts cs ∧
      (runIncrements r cs).lock.flag0 = false ∧
      (runIncrements r cs).lock.flag1 = false := by
  intro cs
  induction cs with
  | nil => intro r _ hf0 hf1; exact ⟨by simp [runIncrements, sumAmounts], hf0, hf1⟩
  | cons p rest ih =>
    intro r hids hf0 hf1
    obtain ⟨pid, amt⟩ := p
    have hpid : pid = 0 ∨ pid = 1 := hids (pid, amt) (List.mem_cons_self _ _)
    have hother : r.lock.flagGet (1 - pid) = false := by
      rcases hpid with rfl | rfl <;> simp_all [PetersonLock.flagGet]
    obtain ⟨h1, h2, h3, h4, h5⟩ :=
      increment_success_spec r pid amt (fun _ => 0) 1 0 0 hpid hother (le_refl 1)
    have hflag0 :
        (SharedResource.increment r pid amt (fun _ => 0) 1 0 0).1.lock.flag0
          = false := by
      rcases hpid with rfl | rfl <;> simp_all [PetersonLock.flagGet]
    have hflag1 :
        (SharedResource.increment r pid amt (fun _ => 0) 1 0 0).1.lock.flag1
          = false := by
      rcases hpid with rfl | rfl <;> simp_all [PetersonLock.flagGet]
    have hrun : runIncrements r ((pid, amt) :: rest) =
        runIncrements (SharedResource.increment r pid amt (fun _ => 0) 1 0 0).1
          rest := by
      rw [runIncrements]
    obtain ⟨ihv, ihf0, ihf1⟩ :=
      ih (SharedResource.increment r pid amt (fun _ => 0) 1 0 0).1
        (fun q hq => hids q (List.mem_cons_of_mem _ hq)) hflag0 hflag1
    refine ⟨?_, by rwa [hrun], by rwa [hrun]⟩
    rw [hrun, ihv, h2]
    simp [sumAmounts]
    omega

/-- C4: Serialized increments are deterministic: for any order in which the
two identities' serialized increments execute, the final counter value is
the sum of all amounts of both sides. -/
theorem serialized_increments_sum (a b : List Int) (c : List (Int × Int))
    (h : Interleaving (taggedOps 0 a) (taggedOps 1 b) c) :
    (runIncrements SharedResource.init c).value = a.sum + b.sum := by
  have hids : ∀ p ∈ c, p.1 = 0 ∨ p.1 = 1 := by
    intro p hp
    rcases interleave_mem h hp with h' | h'
    · obtain ⟨x, _, rfl⟩ := List.mem_map.mp h'
      exact Or.inl rfl
    · obtain ⟨x, _, rfl⟩ := List.mem_map.mp h'
      exact Or.inr rfl
  obtain ⟨hv, _, _⟩ := runIncrements_value c SharedResource.init hids rfl rfl
  rw [hv, interleave_sumAmounts h]
  have hta : ∀ (i : Int) (l : List Int), sumAmounts (taggedOps i l) = l.sum := by
    intro i l
    simp [sumAmounts, taggedOps]
  rw [hta, hta]
  simp [SharedResource.init]

/-- Witness for C4: the spec's scenario — identity 0 performs `[1,1,1]`,
identity 1 performs `[1,1,1]`, in strict alternation — yields 6. -/
theorem serialized_increments_sum_witness :
    Interleaving (taggedOps 0 [1, 1, 1]) (taggedOps 1 [1, 1, 1])
      [(0, 1), (1, 1), (0, 1), (1, 1), (0, 1), (1, 1)] ∧
    (runIncrements SharedResource.init
      [(0, 1), (1, 1), (0, 1), (1, 1), (0, 1), (1, 1)]).value = 6 := by
  have hI : Interleaving (taggedOps 0 [1, 1, 1]) (taggedOps 1 [1, 1, 1])
      [(0, 1), (1, 1), (0, 1), (1, 1), (0, 1), (1, 1)] :=
    .left (0, 1) (.right (1, 1) (.left (0, 1) (.right (1, 1)
      (.left (0, 1) (.right (1, 1) .nil)))))
  exact ⟨hI, (serialized_increments_sum [1, 1, 1] [1, 1, 1] _ hI).trans (by decide)⟩
